import Mathlib

/-!
Verification of a reader/writer for Scala scale files (.scl).

The development shallowly embeds the crate's two types, `Note` and `Scale`,
together with their `Display` (`fmt`) and `FromStr` (`fromStr`) implementations.
Machine integers (`u32`, `usize`) are modelled as `Nat` with explicit bounds,
errors as the crate's `&'static str` messages in `Except String`, and the
standard-library string utilities the crate calls (`str::lines`, `str::trim`,
`str::split_whitespace`, `str::contains`, integer / float / `Ratio<u32>`
parsing, numeric `Display`) are modelled from their documented behaviour.
Cents values are carried as exact rationals: binary rounding of `f64` is not
modelled, which no theorem below depends on.
-/

namespace Scl

deriving instance DecidableEq for Except

/-- Rebuild a `String` from its character list. -/
def ofChars (cs : List Char) : String := ⟨cs⟩

/-- Modelled from the spec of Rust `char::is_whitespace`: the Unicode
`White_Space` property, used by `str::trim` and `str::split_whitespace`. -/
def isRustWs (c : Char) : Bool :=
  c == ' ' || c == '\t' || c == '\n' || c == '\u000B' || c == '\u000C' || c == '\r' ||
  c == '\u0085' || c == '\u00A0' || c == '\u1680' ||
  ('\u2000' ≤ c && c ≤ '\u200A') ||
  c == '\u2028' || c == '\u2029' || c == '\u202F' || c == '\u205F' || c == '\u3000'

/-- Modelled from the spec of Rust `str::trim`: strip leading and trailing
whitespace. -/
def rustTrim (s : String) : String :=
  ofChars (((s.data.dropWhile isRustWs).reverse.dropWhile isRustWs).reverse)

/-- Modelled from the spec of Rust `str::split_whitespace(...).next()`: the
first maximal run of non-whitespace characters, or `none` when the string is
empty or all whitespace. -/
def firstToken (s : String) : Option String :=
  let t := (s.data.dropWhile isRustWs).takeWhile (fun c => !isRustWs c)
  if t.isEmpty then none else some (ofChars t)

/-- Modelled from the spec of Rust `str::contains(char)`. -/
def containsChar (s : String) (c : Char) : Bool := s.data.contains c

/-- Split a character list at each `'\n'`; the resulting parts do not contain
`'\n'` and there is one more part than there are `'\n'` characters. -/
def splitNewline : List Char → List (List Char)
  | [] => [[]]
  | '\n' :: r => [] :: splitNewline r
  | c :: r =>
    match splitNewline r with
    | [] => [[c]]
    | h :: t => (c :: h) :: t

/-- Remove a single trailing `'\r'`, as Rust `str::lines` does for lines that
were terminated by `"\r\n"`. -/
def stripCR (cs : List Char) : List Char :=
  if cs.getLast? = some '\r' then cs.dropLast else cs

/-- All parts but the last were followed by `'\n'` and get a trailing `'\r'`
stripped; the last part (the text after the final `'\n'`) is kept verbatim and
only when non-empty. -/
def rustLinesAux : List (List Char) → List (List Char)
  | [] => []
  | [last] => if last.isEmpty then [] else [last]
  | p :: rest => stripCR p :: rustLinesAux rest

/-- Modelled from the spec of Rust `str::lines`: split at line endings (`"\n"`
or `"\r\n"`), with no trailing empty line when the string ends in a line
ending. -/
def rustLines (s : String) : List String :=
  (rustLinesAux (splitNewline s.data)).map ofChars

/-- Decimal value of a run of ASCII digits. -/
def digitsVal (cs : List Char) : Nat :=
  cs.foldl (fun a c => a * 10 + (c.toNat - 48)) 0

/-- Modelled from the spec of Rust unsigned-integer `FromStr` (`u32::from_str`,
`usize::from_str`): an optional leading `'+'` followed by one or more ASCII
digits, rejecting values at or above `bound`. -/
def parseUnsigned (bound : Nat) (s : String) : Option Nat :=
  let ds := match s.data with
    | '+' :: r => r
    | r => r
  if ds.isEmpty then none
  else if ds.all Char.isDigit then
    let v := digitsVal ds
    if v < bound then some v else none
  else none

/-- Rust `u32::from_str`. -/
def parseU32 (s : String) : Option Nat := parseUnsigned (2 ^ 32) s

/-- Rust `usize::from_str` on a 64-bit target. -/
def parseUsize (s : String) : Option Nat := parseUnsigned (2 ^ 64) s

/-- Modelled from the spec of `num::rational::Ratio::from_str`, which splits at
the first `'/'` (`splitn(2, '/')`) and defaults the denominator to `"1"` when
no `'/'` is present. -/
def splitSlash (s : String) : String × String :=
  let n := s.data.takeWhile (fun c => c != '/')
  match s.data.dropWhile (fun c => c != '/') with
  | [] => (ofChars n, "1")
  | _ :: r => (ofChars n, ofChars r)

/-- Modelled from the spec of `num::rational::Ratio::<u32>::from_str`: parse
both components as `u32`, reject a zero denominator, and reduce to lowest terms
(`Ratio::new` divides by the gcd). -/
def parseRatioU32 (s : String) : Option (Nat × Nat) :=
  let p := splitSlash s
  match parseU32 p.1, parseU32 p.2 with
  | some n, some d =>
    if d = 0 then none
    else some (n / Nat.gcd n d, d / Nat.gcd n d)
  | _, _ => none

/-- Exponent suffix of a float token: empty, or `e`/`E`, an optional sign and
one or more digits consuming the rest of the token. -/
def parseExp : List Char → Option Int
  | [] => some 0
  | c :: r =>
    if c == 'e' || c == 'E' then
      let sg : Int := match r with
        | '-' :: _ => -1
        | _ => 1
      let r1 := match r with
        | '+' :: t => t
        | '-' :: t => t
        | t => t
      if !r1.isEmpty && r1.all Char.isDigit then some (sg * Int.ofNat (digitsVal r1))
      else none
    else none

/-- Exact value of the signed decimal `sgn · ip.fp · 10^e`, built as a single
reduced fraction. -/
def floatVal (sgn : Int) (ip fp : List Char) (e : Int) : Rat :=
  if 0 ≤ e then mkRat (sgn * Int.ofNat (digitsVal (ip ++ fp) * 10 ^ e.toNat)) (10 ^ fp.length)
  else mkRat (sgn * Int.ofNat (digitsVal (ip ++ fp))) (10 ^ fp.length * 10 ^ (-e).toNat)

/-- Unsigned part of the float grammar: digits, an optional `'.'` with further
digits (at least one digit in the mantissa overall), then an exponent. -/
def parseF64Core (sgn : Int) (cs : List Char) : Option Rat :=
  let ip := cs.takeWhile Char.isDigit
  let rest := cs.dropWhile Char.isDigit
  match rest with
  | '.' :: r =>
    let fp := r.takeWhile Char.isDigit
    let rest2 := r.dropWhile Char.isDigit
    if ip.isEmpty && fp.isEmpty then none
    else
      match parseExp rest2 with
      | none => none
      | some e => some (floatVal sgn ip fp e)
  | _ =>
    if ip.isEmpty then none
    else
      match parseExp rest with
      | none => none
      | some e => some (floatVal sgn ip [] e)

/-- Modelled from the spec of Rust `f64::from_str` on tokens that contain a
`'.'` (the word forms `inf`/`infinity`/`nan` contain no `'.'` and are not
modelled): an optional sign followed by a decimal mantissa and optional
exponent.  The value is kept as the exact decimal rational; rounding to binary
`f64` is not modelled. -/
def parseF64Chars (cs : List Char) : Option Rat :=
  match cs with
  | '+' :: r => parseF64Core 1 r
  | '-' :: r => parseF64Core (-1) r
  | r => parseF64Core 1 r

/-- Recogniser for the same float grammar, written against the grammar in the
Rust `f64::from_str` documentation: `Sign? ( Count '.'? Count? Exp? | '.' Count
Exp? )`. -/
def expPartOk : List Char → Bool
  | [] => true
  | c :: r =>
    if c == 'e' || c == 'E' then
      let r1 := match r with
        | '+' :: t => t
        | '-' :: t => t
        | t => t
      !r1.isEmpty && r1.all Char.isDigit
    else false

/-- Mantissa-and-exponent part of the float grammar recogniser. -/
def mantissaExpOk (cs : List Char) : Bool :=
  let ip := cs.takeWhile Char.isDigit
  let rest := cs.dropWhile Char.isDigit
  match rest with
  | '.' :: r =>
    let fp := r.takeWhile Char.isDigit
    (!ip.isEmpty || !fp.isEmpty) && expPartOk (r.dropWhile Char.isDigit)
  | _ => !ip.isEmpty && expPartOk rest

/-- A token is a valid decimal float: optional sign, then mantissa and
exponent. -/
def isValidFloatTok (s : String) : Bool :=
  match s.data with
  | '+' :: r => mantissaExpOk r
  | '-' :: r => mantissaExpOk r
  | r => mantissaExpOk r

/-- Left-pad a digit string with zeros to width `k`. -/
def padZeros (k : Nat) (s : String) : String :=
  ofChars (List.replicate (k - s.data.length) '0') ++ s

/-- Modelled from the spec of Rust `Display` for `f64`: the shortest decimal
string that reads back as the same value, with integral values printed without
a decimal point (`1.0` prints as `"1"`).  On the exact-rational model this is
the minimal finite decimal expansion; values with no finite expansion cannot
arise from a binary `f64` and take the fallback arm. -/
def fmtF64 (q : Rat) : String :=
  if q.den = 1 then toString q.num
  else
    match (List.range (q.den + 1)).find? (fun k => 10 ^ k % q.den == 0) with
    | some k =>
      let m := q.num.natAbs * 10 ^ k / q.den
      (if q.num < 0 then "-" else "") ++
        Nat.repr (m / 10 ^ k) ++ "." ++ padZeros k (Nat.repr (m % 10 ^ k))
    | none => toString q.num ++ "/" ++ toString q.den

/-- `enum Note { Cents(f64), Ratio(Ratio<u32>) }`, with the cents payload as an
exact rational and the ratio payload as its numerator/denominator pair. -/
inductive Note
  | Cents (value : Rat)
  | Ratio (numer denom : Nat)
deriving DecidableEq

/-- `impl Display for Note`: cents via the float `Display`, ratios as
`"{numer}/{denom}"`. -/
def Note.fmt : Note → String
  | .Cents c => fmtF64 c
  | .Ratio n d => Nat.repr n ++ "/" ++ Nat.repr d

/-- `impl FromStr for Note`: a token containing `'.'` is parsed as cents,
anything else as a `Ratio<u32>`. -/
def Note.fromStr (s : String) : Except String Note :=
  if containsChar s '.' then
    match parseF64Chars s.data with
    | some cents => .ok (.Cents cents)
    | none => .error "error parsing cent value"
  else
    match parseRatioU32 s with
    | some p => .ok (.Ratio p.1 p.2)
    | none => .error "error parsing ratio value"

/-- `struct Scale { description: String, notes: Vec<Note> }`. -/
structure Scale where
  description : String
  notes : List Note
deriving DecidableEq

/-- `impl Display for Scale`: the description, a newline, the note count, then
for each note a newline followed by the note (the `writeln!` after the count is
commented out in the source, so each note line's newline precedes it and there
is no trailing newline). -/
def Scale.fmt (s : Scale) : String :=
  let out := s.description
  let out := out ++ "\n"
  let out := out ++ Nat.repr s.notes.length
  s.notes.foldl (fun acc note => acc ++ "\n" ++ note.fmt) out

/-- The comment filter in `Scale::from_str`: keep lines that do not start with
`"!"`. -/
def notComment (l : String) : Bool :=
  match l.data with
  | '!' :: _ => false
  | _ => true

/-- One iteration of the note loop in `Scale::from_str`, on an
already-trimmed line: take the first whitespace-delimited token and parse it
as a `Note`. -/
def parseNoteLine (l : String) : Except String Note :=
  match firstToken l with
  | none => .error "no note on line"
  | some tok => Note.fromStr tok

/-- The note loop of `Scale::from_str`: parse each trimmed line in order,
stopping at the first error. -/
def parseNotes : List String → Except String (List Note)
  | [] => .ok []
  | l :: ls =>
    match parseNoteLine l with
    | .error e => .error e
    | .ok n =>
      match parseNotes ls with
      | .error e => .error e
      | .ok ns => .ok (n :: ns)

/-- Body of `Scale::from_str` after comment filtering: description line taken
verbatim, count line trimmed and parsed as `usize`, remaining lines trimmed and
parsed as notes, and finally the length check against the declared count. -/
def parseSurviving : List String → Except String Scale
  | [] => .error "couldn't read description line"
  | description :: rest =>
    match rest with
    | [] => .error "couldn't read number of notes line"
    | countLine :: noteLines =>
      match parseUsize (rustTrim countLine) with
      | none => .error "invalid number of notes"
      | some number =>
        match parseNotes (noteLines.map rustTrim) with
        | .error e => .error e
        | .ok notes =>
          if notes.length = number then .ok ⟨description, notes⟩
          else .error "number of notes doesn't match actual number of notes"

/-- `Scale::from_str` restated on an explicit line list: drop comment lines,
then run the structural parse. -/
def parseLineList (ls : List String) : Except String Scale :=
  parseSurviving (ls.filter notComment)

/-- `impl FromStr for Scale`. -/
def Scale.fromStr (s : String) : Except String Scale :=
  parseLineList (rustLines s)

/-- The note section of the formatted scale: for each note, a newline followed
by the note's formatted form. -/
def linesOut (notes : List Note) : String :=
  (notes.map (fun n => "\n" ++ n.fmt)).foldr (fun a b => a ++ b) ""

/- ------------------------------------------------------------------ -/
/- Helper lemmas                                                      -/
/- ------------------------------------------------------------------ -/

theorem ofChars_data (s : String) : ofChars s.data = s := rfl

theorem foldl_fmt_eq (notes : List Note) (out : String) :
    notes.foldl (fun acc note => acc ++ "\n" ++ note.fmt) out = out ++ linesOut notes := by
  induction notes generalizing out with
  | nil => simp [linesOut]
  | cons n ns ih =>
    rw [List.foldl_cons, ih]
    simp [linesOut, String.append_assoc]

/-- Closed form of `Scale.fmt`: the sequence of `write!` calls in the source's
`Display` implementation concatenates exactly these pieces. -/
theorem scale_fmt_eq (s : Scale) :
    s.fmt = s.description ++ "\n" ++ Nat.repr s.notes.length ++ linesOut s.notes := by
  simp only [Scale.fmt]
  rw [foldl_fmt_eq]

/-- On a token with no `'.'`, `Note::from_str` takes the ratio branch. -/
theorem fromStr_ratio_branch (s : String) (hdot : containsChar s '.' = false) :
    Note.fromStr s =
      (match parseRatioU32 s with
        | some p => .ok (.Ratio p.1 p.2)
        | none => .error "error parsing ratio value") := by
  simp [Note.fromStr, hdot]

/-- `Ratio::<u32>::from_str` fails when a component fails to parse as `u32` or
the denominator is zero. -/
theorem parseRatioU32_eq_none (s : String)
    (h : parseU32 (splitSlash s).1 = none ∨ parseU32 (splitSlash s).2 = none ∨
      parseU32 (splitSlash s).2 = some 0) :
    parseRatioU32 s = none := by
  cases h1 : parseU32 (splitSlash s).1 <;> cases h2 : parseU32 (splitSlash s).2 <;>
    rcases h with h | h | h <;> simp_all [parseRatioU32]

/- ------------------------------------------------------------------ -/
/- Claim theorems                                                     -/
/- ------------------------------------------------------------------ -/

/-- C1 (code bug): Rust's `Display` for `f64` renders the integral value
`1.0` as `"1"`, which contains no `'.'` and therefore reparses under the
ratio branch as `Ratio(1/1)`, not as `Cents(1.0)`: the note round-trip the
claim (and the crate's own quickcheck property) states fails at
`Note::Cents(1.0)`. -/
theorem note_cents_integral_roundtrip_bug :
    Note.fmt (Note.Cents 1) = "1" ∧
    Note.fromStr "1" = .ok (Note.Ratio 1 1) ∧
    ∀ c : Rat, Note.Ratio 1 1 ≠ Note.Cents c :=
  ⟨by decide, by decide, fun _ h => Note.noConfusion h⟩

/-- C2 (counterexample): the token `"0"` does not fail — `Note::from_str`
performs no positivity check, and `Ratio::<u32>::from_str` accepts a zero
numerator, so `"0"` parses to the ratio `0/1`. -/
theorem note_parse_zero_token_ok :
    Note.fromStr "0" = .ok (Note.Ratio 0 1) ∧
    ∀ e : String, Note.fromStr "0" ≠ .error e :=
  ⟨by decide, fun e h => by rw [show Note.fromStr "0" = .ok (Note.Ratio 0 1) from by decide] at h; exact Except.noConfusion h⟩

/-- C2 (amended): a token with no `'.'` fails with the ratio error whenever
either slash-component fails to parse as a non-negative 32-bit integer or the
denominator is zero — and succeeds with the gcd-reduced ratio otherwise —
so `"-1/2"`, `"1/0"` and `"0/0"` all fail this way, while `"0"` parses
successfully to the ratio `0/1` (positivity is not checked). -/
theorem note_ratio_error_conditions :
    (∀ s : String, containsChar s '.' = false →
      (parseU32 (splitSlash s).1 = none ∨ parseU32 (splitSlash s).2 = none ∨
        parseU32 (splitSlash s).2 = some 0) →
      Note.fromStr s = .error "error parsing ratio value") ∧
    (∀ (s : String) (n d : Nat), containsChar s '.' = false →
      parseU32 (splitSlash s).1 = some n → parseU32 (splitSlash s).2 = some d →
      d ≠ 0 →
      Note.fromStr s = .ok (Note.Ratio (n / Nat.gcd n d) (d / Nat.gcd n d))) ∧
    Note.fromStr "-1/2" = .error "error parsing ratio value" ∧
    Note.fromStr "1/0" = .error "error parsing ratio value" ∧
    Note.fromStr "0/0" = .error "error parsing ratio value" ∧
    Note.fromStr "0" = .ok (Note.Ratio 0 1) := by
  refine ⟨fun s hdot hbad => ?_, fun s n d hdot hn hd hdz => ?_,
    by decide, by decide, by decide, by decide⟩
  · rw [fromStr_ratio_branch s hdot, parseRatioU32_eq_none s hbad]
  · rw [fromStr_ratio_branch s hdot]
    simp [parseRatioU32, hn, hd, hdz]

theorem note_ratio_error_conditions_witness :
    Note.fromStr "7/0" = .error "error parsing ratio value" ∧
    Note.fromStr "4/6" = .ok (Note.Ratio 2 3) :=
  ⟨note_ratio_error_conditions.1 "7/0" (by decide) (Or.inr (Or.inr (by decide))),
   note_ratio_error_conditions.2.1 "4/6" 4 6 (by decide) (by decide) (by decide)
     (by decide)⟩

/-- C3 (code bug): the scale `{description: "x", notes: [Cents(1.0)]}` formats
to `"x\n1\n1"` because `f64` `Display` drops the decimal point on integral
values; parsing that text yields the note `Ratio(1/1)` instead of
`Cents(1.0)`, so the scale round-trip fails even though the description is
`'!'`-free and single-line. -/
theorem scale_cents_integral_roundtrip_bug :
    Scale.fmt ⟨"x", [Note.Cents 1]⟩ = "x\n1\n1" ∧
    Scale.fromStr "x\n1\n1" = .ok ⟨"x", [Note.Ratio 1 1]⟩ ∧
    (⟨"x", [Note.Ratio 1 1]⟩ : Scale) ≠ ⟨"x", [Note.Cents 1]⟩ := by
  refine ⟨by decide, by decide, by decide⟩

/-- C4 (counterexample): formatting the scale with description `"x"` and no
notes yields `"x\n0"` — the count line is not newline-terminated, because the
`writeln!` after the count is commented out and each note's newline is written
before the note. -/
theorem scale_fmt_no_trailing_newline :
    Scale.fmt ⟨"x", []⟩ = "x\n0" ∧ Scale.fmt ⟨"x", []⟩ ≠ "x\n0\n" :=
  ⟨by decide, by decide⟩

/-- C4 (amended): formatting emits, in order, the description, a newline, the
note count computed as the length of the notes list, and then for each note in
original order a newline followed by the note's formatted form; no comment
lines are emitted and there is no trailing newline, so the scale with
description `"x"` and no notes formats to `"x\n0"`. -/
theorem scale_fmt_layout :
    (∀ s : Scale,
      s.fmt = s.description ++ "\n" ++ Nat.repr s.notes.length ++ linesOut s.notes) ∧
    Scale.fmt ⟨"x", []⟩ = "x\n0" :=
  ⟨scale_fmt_eq, by decide⟩

theorem scale_fmt_layout_witness :
    Scale.fmt ⟨"y", [Note.Ratio 3 2]⟩ =
      "y" ++ "\n" ++ Nat.repr 1 ++ linesOut [Note.Ratio 3 2] :=
  scale_fmt_layout.1 ⟨"y", [Note.Ratio 3 2]⟩

/-- C9: `Scale`'s `Display` performs no validation of the description — it is
emitted verbatim even when it begins with `'!'` — and for the scale with
description `"!x"` and no notes the formatted text `"!x\n0"` parses to an
error (the description line is stripped as a comment), not back to the
original scale. -/
theorem fmt_no_description_validation :
    Scale.fmt ⟨"!x", []⟩ = "!x\n0" ∧
    Scale.fromStr (Scale.fmt ⟨"!x", []⟩) = .error "couldn't read number of notes line" ∧
    Scale.fromStr (Scale.fmt ⟨"!x", []⟩) ≠ .ok ⟨"!x", []⟩ := by
  refine ⟨by decide, by decide, by decide⟩

/-- C6: every line whose first character is `'!'` is discarded by the filter
before structural parsing, wherever it sits in the line list, so inserting a
comment line anywhere leaves the parse result unchanged; concretely, a comment
before the description or between the count and a note line changes nothing. -/
theorem comment_transparency :
    (∀ (pre post : List String) (c : String), c.data.head? = some '!' →
      parseLineList (pre ++ c :: post) = parseLineList (pre ++ post)) ∧
    Scale.fromStr "!c\nx\n0" = Scale.fromStr "x\n0" ∧
    Scale.fromStr "x\n!c\n1\n5/4" = Scale.fromStr "x\n1\n5/4" := by
  refine ⟨fun pre post c hc => ?_, by decide, by decide⟩
  have hnc : notComment c = false := by
    unfold notComment
    cases hd : c.data with
    | nil => rw [hd] at hc; exact Option.noConfusion hc
    | cons a t =>
      rw [hd] at hc
      have ha : a = '!' := Option.some.inj hc
      subst ha
      rfl
  simp [parseLineList, List.filter_append, List.filter_cons, hnc]

theorem comment_transparency_witness :
    parseLineList (["x", "0"] ++ "!y" :: []) = parseLineList (["x", "0"] ++ []) :=
  comment_transparency.1 ["x", "0"] [] "!y" (by decide)

/-- C7: the second surviving line, trimmed, must parse as a non-negative
(64-bit) integer — parsing fails with the missing-count error when no such
line exists and the invalid-count error when it does not parse — and after all
surviving lines are consumed the number of parsed notes must equal that count,
else parsing fails with the count-mismatch error; a declared count of zero
with zero note lines yields the empty scale. -/
theorem count_validation :
    (∀ d : String, parseSurviving [d] = .error "couldn't read number of notes line") ∧
    (∀ (d c : String) (rest : List String), parseUsize (rustTrim c) = none →
      parseSurviving (d :: c :: rest) = .error "invalid number of notes") ∧
    (∀ (d c : String) (rest : List String) (n : Nat) (notes : List Note),
      parseUsize (rustTrim c) = some n →
      parseNotes (rest.map rustTrim) = .ok notes →
      (notes.length = n → parseSurviving (d :: c :: rest) = .ok ⟨d, notes⟩) ∧
      (notes.length ≠ n → parseSurviving (d :: c :: rest) =
        .error "number of notes doesn't match actual number of notes")) ∧
    (∀ (d c : String), parseUsize (rustTrim c) = some 0 →
      parseSurviving [d, c] = .ok ⟨d, []⟩) ∧
    Scale.fromStr "x" = .error "couldn't read number of notes line" ∧
    Scale.fromStr "x\nabc" = .error "invalid number of notes" ∧
    Scale.fromStr "x\n-2" = .error "invalid number of notes" ∧
    Scale.fromStr "x\n2\n5/4" = .error "number of notes doesn't match actual number of notes" ∧
    Scale.fromStr "x\n0\n" = .ok ⟨"x", []⟩ := by
  refine ⟨fun d => rfl, fun d c rest h => ?_, fun d c rest n notes h1 h2 => ⟨fun hlen => ?_, fun hne => ?_⟩,
    fun d c h => ?_, by decide, by decide, by decide, by decide, by decide⟩
  · simp [parseSurviving, h]
  · simp [parseSurviving, h1, h2, hlen]
  · simp [parseSurviving, h1, h2, hne]
  · simp [parseSurviving, h, parseNotes]

theorem count_validation_witness :
    parseSurviving ["d"] = .error "couldn't read number of notes line" ∧
    parseSurviving ["d", "q"] = .error "invalid number of notes" ∧
    parseSurviving ["d", "1", "5/4"] = .ok ⟨"d", [Note.Ratio 5 4]⟩ ∧
    parseSurviving ["d", "1", "5/4", "2/1"] =
      .error "number of notes doesn't match actual number of notes" ∧
    parseSurviving ["d", "0"] = .ok ⟨"d", []⟩ :=
  ⟨count_validation.1 "d",
   count_validation.2.1 "d" "q" [] (by decide),
   (count_validation.2.2.1 "d" "1" ["5/4"] 1 [Note.Ratio 5 4] (by decide) (by decide)).1 rfl,
   (count_validation.2.2.1 "d" "1" ["5/4", "2/1"] 1 [Note.Ratio 5 4, Note.Ratio 2 1]
      (by decide) (by decide)).2 (by decide),
   count_validation.2.2.2.1 "d" "0" (by decide)⟩

/-- C8: each surviving line after the count line is trimmed and only its first
whitespace-delimited token is parsed as a note, the rest of the line being
ignored; a line that is empty after trimming yields the missing-note-token
error, and an inner note-parse error is propagated as the scale parse error. -/
theorem note_line_tokenization :
    (∀ l tok : String, firstToken (rustTrim l) = some tok →
      parseNoteLine (rustTrim l) = Note.fromStr tok) ∧
    (∀ l : String, firstToken (rustTrim l) = none →
      parseNoteLine (rustTrim l) = .error "no note on line") ∧
    parseNoteLine (rustTrim "5/4 extra text") = parseNoteLine (rustTrim "5/4") ∧
    Scale.fromStr "x\n1\n5/4 extra text" = Scale.fromStr "x\n1\n5/4" ∧
    Scale.fromStr "x\n1\n5/4 extra text" = .ok ⟨"x", [Note.Ratio 5 4]⟩ ∧
    Scale.fromStr "x\n1\n   " = .error "no note on line" ∧
    Scale.fromStr "x\n1\nbogus" = .error "error parsing ratio value" := by
  refine ⟨fun l tok h => ?_, fun l h => ?_, by decide, by decide, by decide, by decide, by decide⟩
  · simp [parseNoteLine, h]
  · simp [parseNoteLine, h]

theorem note_line_tokenization_witness :
    parseNoteLine (rustTrim " 5/4 junk ") = Note.fromStr "5/4" ∧
    parseNoteLine (rustTrim "   ") = .error "no note on line" :=
  ⟨note_line_tokenization.1 " 5/4 junk " "5/4" (by decide),
   note_line_tokenization.2.1 "   " (by decide)⟩

theorem parseExp_isSome (cs : List Char) : (parseExp cs).isSome = expPartOk cs := by
  cases cs with
  | nil => rfl
  | cons c r =>
    simp only [parseExp, expPartOk]
    split
    · split <;> simp_all
    · rfl

theorem parseF64Core_isSome (sgn : Int) (cs : List Char) :
    (parseF64Core sgn cs).isSome = mantissaExpOk cs := by
  simp only [parseF64Core, mantissaExpOk]
  split
  · rename_i r heq
    have hPe : expPartOk (r.dropWhile Char.isDigit) =
        (parseExp (r.dropWhile Char.isDigit)).isSome :=
      (parseExp_isSome (r.dropWhile Char.isDigit)).symm
    cases ha : (cs.takeWhile Char.isDigit).isEmpty <;>
      cases hb : (r.takeWhile Char.isDigit).isEmpty <;>
        cases hp : parseExp (r.dropWhile Char.isDigit) <;>
          simp [ha, hb, hp, hPe]
  · have hPe : expPartOk (cs.dropWhile Char.isDigit) =
        (parseExp (cs.dropWhile Char.isDigit)).isSome :=
      (parseExp_isSome (cs.dropWhile Char.isDigit)).symm
    cases ha : (cs.takeWhile Char.isDigit).isEmpty <;>
      cases hp : parseExp (cs.dropWhile Char.isDigit) <;>
        simp [ha, hp, hPe]

theorem parseF64Chars_isSome (s : String) :
    (parseF64Chars s.data).isSome = isValidFloatTok s := by
  simp only [parseF64Chars, isValidFloatTok]
  split <;> simp [parseF64Core_isSome]

theorem not_contains_split (c : Char) (cs : List Char) (h : cs.contains c = false) :
    cs.takeWhile (fun x => x != c) = cs ∧ cs.dropWhile (fun x => x != c) = [] := by
  induction cs with
  | nil => simp
  | cons a t ih =>
    have h2 : (c == a) = false ∧ t.contains c = false := by
      simpa using h
    have ha : (a != c) = true := by
      simp only [bne_iff_ne, ne_eq]
      intro hac
      rw [hac] at h2
      simp at h2
    rcases ih h2.2 with ⟨h3, h4⟩
    simp [List.takeWhile_cons, List.dropWhile_cons, ha, h3, h4]

theorem splitSlash_no_slash (s : String) (h : containsChar s '/' = false) :
    splitSlash s = (s, "1") := by
  have hsplit := not_contains_split '/' s.data h
  unfold splitSlash
  rw [hsplit.1, hsplit.2]
  rfl

/-- C5: a token containing `'.'` is parsed as a cents value, succeeding with a
`Cents` note exactly when the token matches the decimal float grammar and
failing with the cents error otherwise; a token without `'.'` is parsed as a
ratio (yielding a `Ratio` note or the ratio error), and a bare integer token
`k` (no `'.'`, no `'/'`) yields the ratio `k/1`. -/
theorem note_token_disambiguation :
    (∀ s : String, containsChar s '.' = true →
      ((∃ c, Note.fromStr s = .ok (Note.Cents c)) ↔ isValidFloatTok s = true) ∧
      (isValidFloatTok s = false → Note.fromStr s = .error "error parsing cent value")) ∧
    (∀ s : String, containsChar s '.' = false →
      (∃ n d, Note.fromStr s = .ok (Note.Ratio n d)) ∨
        Note.fromStr s = .error "error parsing ratio value") ∧
    (∀ (s : String) (k : Nat), containsChar s '.' = false → containsChar s '/' = false →
      parseU32 s = some k → Note.fromStr s = .ok (Note.Ratio k 1)) ∧
    Note.fromStr "0." = .ok (Note.Cents 0) ∧
    Note.fromStr ".0" = .ok (Note.Cents 0) ∧
    Note.fromStr "1200." = .ok (Note.Cents 1200) ∧
    Note.fromStr "a1.32" = .error "error parsing cent value" := by
  refine ⟨fun s hdot => ?_, fun s hdot => ?_, fun s k hdot hslash hk => ?_,
    by decide, by decide, by decide, by decide⟩
  · have hbranch : Note.fromStr s =
        (match parseF64Chars s.data with
          | some c => .ok (.Cents c)
          | none => .error "error parsing cent value") := by
      simp [Note.fromStr, hdot]
    have hval := parseF64Chars_isSome s
    refine ⟨⟨fun hex => ?_, fun hv => ?_⟩, fun hv => ?_⟩
    · rcases hex with ⟨c, hc⟩
      rw [hbranch] at hc
      cases hp : parseF64Chars s.data with
      | none => rw [hp] at hc; exact Except.noConfusion hc
      | some v => rw [hp] at hval; simpa using hval.symm
    · cases hp : parseF64Chars s.data with
      | none => rw [hp] at hval; rw [hv] at hval; exact absurd hval (by simp)
      | some v => exact ⟨v, by rw [hbranch, hp]⟩
    · cases hp : parseF64Chars s.data with
      | some v => rw [hp] at hval; rw [hv] at hval; exact absurd hval (by simp)
      | none => rw [hbranch, hp]
  · rw [fromStr_ratio_branch s hdot]
    cases hp : parseRatioU32 s with
    | none => exact Or.inr rfl
    | some p => exact Or.inl ⟨p.1, p.2, rfl⟩
  · rw [fromStr_ratio_branch s hdot]
    have hone : parseU32 "1" = some 1 := by decide
    simp [parseRatioU32, splitSlash_no_slash s hslash, hk, hone, Nat.gcd_one_right,
      Nat.div_one]

theorem note_token_disambiguation_witness :
    Note.fromStr "12" = .ok (Note.Ratio 12 1) ∧
    Note.fromStr "1..2" = .error "error parsing cent value" :=
  ⟨note_token_disambiguation.2.2.1 "12" 12 (by decide) (by decide) (by decide),
   (note_token_disambiguation.1 "1..2" (by decide)).2 (by decide)⟩

/-- `Note::from_str` only ever fails with one of its two error messages. -/
theorem fromStr_error_mem (s e : String) (h : Note.fromStr s = .error e) :
    e = "error parsing cent value" ∨ e = "error parsing ratio value" := by
  simp only [Note.fromStr] at h
  split at h
  · cases hp : parseF64Chars s.data <;> rw [hp] at h
    · exact Or.inl (Except.error.inj h).symm
    · exact Except.noConfusion h
  · cases hp : parseRatioU32 s <;> rw [hp] at h
    · exact Or.inr (Except.error.inj h).symm
    · exact Except.noConfusion h

/-- The note loop only ever fails with the missing-token message or one of the
two note-parse messages. -/
theorem parseNotes_error_mem (ls : List String) (e : String) (h : parseNotes ls = .error e) :
    e = "no note on line" ∨ e = "error parsing cent value" ∨
      e = "error parsing ratio value" := by
  induction ls generalizing e with
  | nil => exact Except.noConfusion h
  | cons l t ih =>
    simp only [parseNotes] at h
    cases hl : parseNoteLine l with
    | error e1 =>
      rw [hl] at h
      have he : e1 = e := Except.error.inj h
      subst he
      simp only [parseNoteLine] at hl
      cases ht : firstToken l with
      | none => rw [ht] at hl; exact Or.inl (Except.error.inj hl).symm
      | some tok =>
        rw [ht] at hl
        exact Or.inr (fromStr_error_mem tok e1 hl)
    | ok n =>
      rw [hl] at h
      cases ht : parseNotes t with
      | error e2 =>
        rw [ht] at h
        have he : e2 = e := Except.error.inj h
        subst he
        exact ih e2 ht
      | ok ns => rw [ht] at h; exact Except.noConfusion h

/-- C10: the note loop consumes and parses every surviving note line before
the declared count is compared with the number of parsed notes, so a
note-parse error always wins over a count mismatch: when the count parses and
some note line fails, the scale parse reports that note error, and the
count-mismatch error can only be reported when every note line parsed
successfully.  Concretely, declared count `0` followed by the invalid line
`"bogus"` reports the ratio error, not the mismatch. -/
theorem error_precedence_notes_before_count :
    (∀ (d c : String) (rest : List String) (n : Nat) (e : String),
      parseUsize (rustTrim c) = some n →
      parseNotes (rest.map rustTrim) = .error e →
      parseSurviving (d :: c :: rest) = .error e) ∧
    (∀ (d c : String) (rest : List String),
      parseSurviving (d :: c :: rest) =
          .error "number of notes doesn't match actual number of notes" →
      ∃ n notes, parseUsize (rustTrim c) = some n ∧
        parseNotes (rest.map rustTrim) = .ok notes ∧ notes.length ≠ n) ∧
    parseSurviving ["d", "0", "bogus"] = .error "error parsing ratio value" ∧
    Scale.fromStr "d\n0\nbogus" = .error "error parsing ratio value" := by
  refine ⟨fun d c rest n e h1 h2 => by simp [parseSurviving, h1, h2],
    fun d c rest h => ?_, by decide, by decide⟩
  cases hn : parseUsize (rustTrim c) with
  | none =>
    simp only [parseSurviving, hn] at h
    exact absurd (Except.error.inj h) (by decide)
  | some n =>
    cases hs : parseNotes (rest.map rustTrim) with
    | error e =>
      simp only [parseSurviving, hn, hs] at h
      have he : e = "number of notes doesn't match actual number of notes" :=
        Except.error.inj h
      rcases parseNotes_error_mem (rest.map rustTrim) e hs with h1 | h1 | h1 <;>
        rw [h1] at he <;> exact absurd he (by decide)
    | ok notes =>
      refine ⟨n, notes, rfl, rfl, fun hlen => ?_⟩
      simp [parseSurviving, hn, hs, hlen] at h

theorem error_precedence_notes_before_count_witness :
    parseSurviving ["d", "1", "bogus"] = .error "error parsing ratio value" :=
  error_precedence_notes_before_count.1 "d" "1" ["bogus"] 1 "error parsing ratio value"
    (by decide) (by decide)

end Scl
